import Mathlib

/-!
# Cluster sizing configuration and OAuth audit configuration

A shallow embedding of

* `control-plane-operator/controllers/hostedcontrolplane/oauth/auditcfg.go`
  (`ReconcileAuditConfig`, `AuditEnabled`), and
* `api/scheduling/v1alpha1/clustersizingconfiguration_types.go`
  (the `ClusterSizingConfiguration` types with their validation rules and
  defaults),

together with the classification and transition engine that the sizing
configuration drives.
-/

namespace Oauth

/-! ## `auditcfg.go` -/

/-- A Go `map[string]string` that is not nil: a partial function on keys. -/
abbrev StringMap := String → Option String

/-- The `corev1.ConfigMap` fields the package touches: the object metadata
(of a type `M` owned by the API machinery) and `Data`, where `none` is the nil
map. -/
structure ConfigMap (M : Type) where
  ObjectMeta : M
  Data : Option StringMap

/-- The `config.OwnerRef` of the support package is used only through its
method `ApplyTo`, which receives the object through the `client.Object`
interface and so acts on the object metadata. -/
structure OwnerRef (M : Type) where
  ApplyTo : M → M

/-- The `configv1.Audit` configuration; `Profile` is an `AuditProfileType`,
a string type. -/
structure Audit where
  Profile : String

def auditPolicyConfigMapKey : String := "policy.yaml"

def auditPolicyProfileMapKey : String := "profile"

/-- The constant `configv1.NoneAuditProfileType` of `openshift/api`. -/
def NoneAuditProfileType : String := "None"

/-- Go map read `m[k]`: the zero value `""` for a nil map or a missing key. -/
def mapIndex (d : Option StringMap) (k : String) : String :=
  match d with
  | none => ""
  | some m => (m k).getD ""

/-- Go map read `v, ok := m[k]`: `none` for a nil map or a missing key. -/
def mapLookup (d : Option StringMap) (k : String) : Option String :=
  match d with
  | none => none
  | some m => m k

/-- Go map write `m[k] = v` on a non-nil map. -/
def mapAssign (m : StringMap) (k v : String) : StringMap :=
  fun j => if j = k then some v else m j

/-- The function `ReconcileAuditConfig(cm, ownerRef, auditConfig)`: the config
map after the call, and the returned error (`none` is Go's `nil`). The package constant
`oauthPolicy` is a parameter. -/
def ReconcileAuditConfig {M : Type} (oauthPolicy : String) (cm : ConfigMap M)
    (ownerRef : OwnerRef M) (auditConfig : Audit) : ConfigMap M × Option String :=
  let cm1 : ConfigMap M := { cm with ObjectMeta := ownerRef.ApplyTo cm.ObjectMeta }
  let data : StringMap :=
    match cm1.Data with
    | none => fun _ => none
    | some m => m
  let data := mapAssign data auditPolicyConfigMapKey oauthPolicy
  let data := mapAssign data auditPolicyProfileMapKey auditConfig.Profile
  ({ cm1 with Data := some data }, none)

/-- The function `AuditEnabled(auditCfgMap)`: whether the value read under the
profile key differs from the None audit profile. -/
def AuditEnabled {M : Type} (auditCfgMap : ConfigMap M) : Bool :=
  mapIndex auditCfgMap.Data auditPolicyProfileMapKey != NoneAuditProfileType

end Oauth

namespace Sizing

/-! ## `clustersizingconfiguration_types.go`: types -/

/-- The criteria based on node count for a cluster to have a t-shirt size.
`From` is the inclusive lower limit (a `uint32`, never negative); `To` is the
inclusive upper limit, `none` when unset. -/
structure NodeCountCriteria where
  From : Nat
  To : Option Nat
deriving DecidableEq, Repr

/-- The effects on a cluster considered part of a size class; quantities and
priority class names are kept as their strings. -/
structure Effects where
  KASMemoryRequest : Option String
  KASGoMemLimit : Option String
  ControlPlanePriorityClassName : Option String
  EtcdPriorityClassName : Option String
  APICriticalPriorityClassName : Option String
deriving DecidableEq, Repr

/-- Options for clusters of a given size. -/
structure SizeConfiguration where
  Name : String
  Criteria : NodeCountCriteria
  Effects : Option Sizing.Effects
deriving DecidableEq, Repr

/-- Bounds for the concurrency of clusters transitioning between sizes.
The sliding window is a duration, an integer number of time units. -/
structure ConcurrencyConfiguration where
  SlidingWindow : Int
  Limit : Int
deriving DecidableEq, Repr

/-- The lag between a cluster's size changing and the assigned size class
being applied, per direction of the change. -/
structure TransitionDelayConfiguration where
  Increase : Int
  Decrease : Int
deriving DecidableEq, Repr

/-- The desired state of a `ClusterSizingConfiguration`. -/
structure ClusterSizingConfigurationSpec where
  Sizes : List SizeConfiguration
  Concurrency : ConcurrencyConfiguration
  TransitionDelay : TransitionDelayConfiguration
deriving DecidableEq, Repr

/-! ## Validation rules -/

/-- The CEL macro `l.exists_one(i, p)`: a fold over the list that counts the
elements satisfying `p`, the result being whether the count is one. -/
def exists_one {α : Type} (l : List α) (p : α → Bool) : Bool :=
  l.foldl (fun acc i => if p i then acc + 1 else acc) 0 == 1

/-- The CEL macro `has(x)` on an optional field. -/
def has {α : Type} (x : Option α) : Bool := x.isSome

/-- Rule on `NodeCountCriteria`:
`!has(self.to) || self.from <= self.to`, message "lower limit must be less
than or equal to the upper limit". -/
def NodeCountCriteria.rule (self : NodeCountCriteria) : Bool :=
  !has self.To ||
    (match self.To with
     | some upper => decide (self.From ≤ upper)
     | none => false)

/-- First rule on `Sizes`: `self.exists_one(i, i.criteria.from == 0)`, message
"exactly one size class must have a lower limit of zero". -/
def sizesRuleLowerLimit (self : List SizeConfiguration) : Bool :=
  exists_one self (fun i => i.Criteria.From == 0)

/-- Second rule on `Sizes`: `self.exists_one(i, !has(i.criteria.to))`, message
"exactly one size class must have no upper limit". -/
def sizesRuleUpperLimit (self : List SizeConfiguration) : Bool :=
  exists_one self (fun i => !has i.Criteria.To)

/-- The two validation rules declared on the field `Sizes`, together. -/
def sizesRules (self : List SizeConfiguration) : Bool :=
  sizesRuleLowerLimit self && sizesRuleUpperLimit self

/-- The list-map declaration on `Sizes` (`+listType=map`, `+listMapKey=name`):
no two elements of the list have the same `name`. -/
def listMapKeysUnique : List SizeConfiguration → Bool
  | [] => true
  | a :: rest => !rest.any (fun b => b.Name == a.Name) && listMapKeysUnique rest

/-- The validation declared on the field `Sizes`: the list-map keys are unique
and both rules hold. (The field is also required; a missing list is the empty
list here.) -/
def validateSizes (self : List SizeConfiguration) : Bool :=
  listMapKeysUnique self && sizesRules self

/-- The rules declared on `Sizes` and on `NodeCountCriteria` together: the
rules of the list, and the rule of the criteria of every element. -/
def validateSizeClasses (self : List SizeConfiguration) : Bool :=
  sizesRules self && self.all (fun i => i.Criteria.rule)

/-! ## Duration pattern, defaults -/

/-- The character class `[0-9]`. -/
def digit : RegularExpression Char :=
  .char '0' + .char '1' + .char '2' + .char '3' + .char '4' +
  .char '5' + .char '6' + .char '7' + .char '8' + .char '9'

/-- The pattern `^([0-9]+(\.[0-9]+)?(s|m|h))+$` on the duration fields; the
anchors make it a match of the whole string. In `RegularExpression`, `+` is
alternation, `*` is concatenation, `1` matches the empty string. -/
def durationPattern : RegularExpression Char :=
  let digits : RegularExpression Char := digit * .star digit
  let fraction : RegularExpression Char := .char '.' * digits + 1
  let unit : RegularExpression Char := .char 's' + .char 'm' + .char 'h'
  let group : RegularExpression Char := digits * fraction * unit
  group * .star group

/-- Whether a string passes the `Pattern` validation of a duration field. -/
def validDuration (s : String) : Bool :=
  durationPattern.rmatch s.toList

/-- The `Minimum=1` validation of `Limit`. -/
def validLimit (limit : Int) : Bool := decide (1 ≤ limit)

/-- Default of `concurrency.slidingWindow`. -/
def defaultSlidingWindow : String := "10m"

/-- Default of `concurrency.limit`. -/
def defaultLimit : Int := 5

/-- Default of `transitionDelay.increase`. -/
def defaultIncrease : String := "30s"

/-- Default of `transitionDelay.decrease`. -/
def defaultDecrease : String := "10m"

end Sizing

namespace Engine

open Sizing

/-! ## Size partition and classifier -/

/-- Whether a node count falls into the range of a criteria: `From` is the
inclusive lower limit, `To` the inclusive upper limit, and a criteria with
`To` unset matches every node count from the lower limit on (the field
comments of `NodeCountCriteria`). -/
def matchesCriteria (c : NodeCountCriteria) (n : Nat) : Bool :=
  decide (c.From ≤ n) &&
    (match c.To with
     | none => true
     | some upper => decide (n ≤ upper))

/-- Modelled from the spec: the size classes ordered by their `from` bound
(the sorting is not under `src/`; §3 "size classes are ordered by their
`from` bound"). -/
def sortByFrom (sizes : List SizeConfiguration) : List SizeConfiguration :=
  sizes.insertionSort (fun a b => a.Criteria.From ≤ b.Criteria.From)

/-- Modelled from the spec: `to_i + 1 == from_{i+1}` along a sequence of size
classes (§3); a class followed by another one must have its `to` set. -/
def contiguous : List SizeConfiguration → Bool
  | a :: b :: rest =>
      (match a.Criteria.To with
       | some upper => upper + 1 == b.Criteria.From
       | none => false) && contiguous (b :: rest)
  | _ => true

/-- Modelled from the spec: the partition invariant of §3 (its check is not
under `src/`): exactly one class has `from == 0`, exactly one has `to` unset,
and `to_i + 1 == from_{i+1}` for the classes sorted by `from`. -/
def partitionInvariant (sizes : List SizeConfiguration) : Bool :=
  exists_one sizes (fun i => i.Criteria.From == 0) &&
  exists_one sizes (fun i => !has i.Criteria.To) &&
  contiguous (sortByFrom sizes)

/-- Modelled from the spec: `Classify(nodeCount)` of §4.1 (not under `src/`):
a linear scan over the sorted intervals that returns the name of the matching
class, `none` when no class matches. -/
def Classify (sizes : List SizeConfiguration) (nodeCount : Nat) : Option String :=
  ((sortByFrom sizes).find? (fun c => matchesCriteria c.Criteria nodeCount)).map (fun c => c.Name)

/-! ## Fleet transition limiter -/

/-- Modelled from the spec: the `TransitionRecord` of §3 (not under `src/`),
a cluster and the time its transition was committed. -/
structure TransitionRecord where
  clusterID : String
  committedAt : Int
deriving DecidableEq, Repr

/-- Modelled from the spec: the number of ledger entries with
`committedAt > now - slidingWindow` (§4.3; not under `src/`). -/
def windowCount (ledger : List TransitionRecord) (slidingWindow now : Int) : Nat :=
  ledger.countP (fun r => decide (r.committedAt > now - slidingWindow))

/-- Modelled from the spec: `Admit(clusterID, now)` of §4.3 (not under
`src/`) on an explicit ledger: when the window count is below the limit the
record is appended and the answer is `true`, otherwise the answer is `false`
and the ledger is returned as it was. -/
def Admit (c : ConcurrencyConfiguration) (ledger : List TransitionRecord)
    (clusterID : String) (now : Int) : Bool × List TransitionRecord :=
  if (windowCount ledger c.SlidingWindow now : Int) < c.Limit then
    (true, ledger ++ [{ clusterID := clusterID, committedAt := now }])
  else
    (false, ledger)

/-- Modelled from the spec: a sequence of `Admit` calls (cluster, time), each
on the ledger the previous one left (§5, one writer); the final ledger. -/
def admitAll (c : ConcurrencyConfiguration) :
    List TransitionRecord → List (String × Int) → List TransitionRecord
  | ledger, [] => ledger
  | ledger, call :: rest => admitAll c (Admit c ledger call.1 call.2).2 rest

/-- Modelled from the spec: the number of ledger entries committed in the
window `(now - slidingWindow, now]`. -/
def committedInWindow (ledger : List TransitionRecord) (slidingWindow now : Int) : Nat :=
  ledger.countP (fun r => decide (now - slidingWindow < r.committedAt ∧ r.committedAt ≤ now))

/-! ## Transition debouncer -/

/-- Modelled from the spec: the `ClusterSizingState` of §3 (not under
`src/`). -/
structure ClusterSizingState where
  currentSize : String
  observedSize : String
  pendingSince : Option Int
deriving DecidableEq, Repr

/-- Modelled from the spec: the direction of a pending change (§4.2). -/
inductive Direction where
  | increase
  | decrease
deriving DecidableEq, Repr

/-- Modelled from the spec: the lower bound of the size class of a given
name, `none` when the configuration has no class of that name. -/
def lowerBound (sizes : List SizeConfiguration) (name : String) : Option Nat :=
  (sizes.find? (fun c => c.Name == name)).map (fun c => c.Criteria.From)

/-- Modelled from the spec: "increase" if the observed size's lower bound
exceeds the current size's lower bound, else "decrease" (§4.2). -/
def direction (sizes : List SizeConfiguration) (current observed : String) : Direction :=
  match lowerBound sizes observed, lowerBound sizes current with
  | some o, some c => if o > c then .increase else .decrease
  | _, _ => .decrease

/-- Modelled from the spec: `delay(direction)` (§4.2). -/
def delay (d : TransitionDelayConfiguration) : Direction → Int
  | .increase => d.Increase
  | .decrease => d.Decrease

/-- Modelled from the spec: the update of `observedSize` and `pendingSince`
on an evaluation (§4.2): an observation equal to the current size clears
`pendingSince`; a first divergence, or a different non-current value while
pending, sets it to now; the same pending value keeps it. -/
def observe (s : ClusterSizingState) (observed : String) (now : Int) : ClusterSizingState :=
  if observed = s.currentSize then
    { s with observedSize := observed, pendingSince := none }
  else
    match s.pendingSince with
    | none => { s with observedSize := observed, pendingSince := some now }
    | some since =>
        if observed = s.observedSize then { s with pendingSince := some since }
        else { s with observedSize := observed, pendingSince := some now }

/-- Modelled from the spec: a Ready state is a Pending state where
`now - pendingSince >= delay(direction)` (§4.2). -/
def isReady (spec : ClusterSizingConfigurationSpec) (s : ClusterSizingState) (now : Int) : Bool :=
  match s.pendingSince with
  | none => false
  | some since =>
      decide (now - since ≥ delay spec.TransitionDelay (direction spec.Sizes s.currentSize s.observedSize))

/-- Modelled from the spec: one evaluation of a cluster, the latest node count
(`none` when the fetch failed) and the time. -/
structure Evaluation where
  nodeCount : Option Nat
  now : Int
deriving DecidableEq, Repr

/-- Modelled from the spec: the classifier output of an evaluation. There is
none when the configuration fails the partition invariant (§4.4, activity is
halted), when the node count is unavailable (§7, the cluster is skipped), or
when no class matches. -/
def observation (spec : ClusterSizingConfigurationSpec) (e : Evaluation) : Option String :=
  if partitionInvariant spec.Sizes then
    match e.nodeCount with
    | none => none
    | some n => Classify spec.Sizes n
  else none

/-- Modelled from the spec: one evaluation of one cluster (§4.2, §4.4; not
under `src/`), on the shared ledger and the cluster's state. Without an
observation nothing changes. A current size that the configuration does not
have is reclassified at once, without debounce. Otherwise the state is
updated by `observe`; a Ready cluster is offered to the limiter and, when
admitted, commits (`currentSize` becomes `observedSize`, `pendingSince` is
cleared); when deferred it stays as it is. -/
def evaluate (spec : ClusterSizingConfigurationSpec) (clusterID : String)
    (st : List TransitionRecord × ClusterSizingState) (e : Evaluation) :
    List TransitionRecord × ClusterSizingState :=
  match observation spec e with
  | none => st
  | some observed =>
      match lowerBound spec.Sizes st.2.currentSize with
      | none => (st.1, { currentSize := observed, observedSize := observed, pendingSince := none })
      | some _ =>
          let s1 := observe st.2 observed e.now
          if isReady spec s1 e.now then
            let r := Admit spec.Concurrency st.1 clusterID e.now
            if r.1 then
              (r.2, { currentSize := s1.observedSize, observedSize := s1.observedSize,
                      pendingSince := none })
            else (st.1, s1)
          else (st.1, s1)

/-- Modelled from the spec: a sequence of evaluations of one cluster. -/
def evaluateAll (spec : ClusterSizingConfigurationSpec) (clusterID : String)
    (st : List TransitionRecord × ClusterSizingState) (es : List Evaluation) :
    List TransitionRecord × ClusterSizingState :=
  es.foldl (evaluate spec clusterID) st

/-- Modelled from the spec: whether the cluster is Ready at an evaluation,
that is after the update of `observedSize` and `pendingSince` (§4.2). -/
def readyAt (spec : ClusterSizingConfigurationSpec) (s : ClusterSizingState)
    (e : Evaluation) : Bool :=
  match observation spec e with
  | none => false
  | some observed => isReady spec (observe s observed e.now) e.now

/-- Modelled from the spec: along a sequence of evaluations, `delay(direction)`
has at no evaluation elapsed since `pendingSince`: the cluster is never
Ready. -/
def delayNotElapsed (spec : ClusterSizingConfigurationSpec) (clusterID : String) :
    List TransitionRecord × ClusterSizingState → List Evaluation → Bool
  | _, [] => true
  | st, e :: rest =>
      !readyAt spec st.2 e && delayNotElapsed spec clusterID (evaluate spec clusterID st e) rest

/-- Modelled from the spec: the Stable state (§4.2): `observedSize` equals
`currentSize` and `pendingSince` is absent. -/
def isStable (s : ClusterSizingState) : Bool :=
  s.observedSize == s.currentSize && s.pendingSince.isNone

end Engine

/-! # Theorems -/

namespace Oauth

/-- C8: after `ReconcileAuditConfig(cm, ownerRef, a)`, for a config map with nil
or non-nil `Data`, `AuditEnabled` is true if and only if `a.Profile` is not the
None audit profile, and the value read under the profile key is exactly the
profile that was written. -/
theorem auditEnabled_reconcile_iff {M : Type} (oauthPolicy : String) (cm : ConfigMap M)
    (ownerRef : OwnerRef M) (a : Audit) :
    (AuditEnabled (ReconcileAuditConfig oauthPolicy cm ownerRef a).1 = true ↔
      a.Profile ≠ NoneAuditProfileType) ∧
    mapIndex (ReconcileAuditConfig oauthPolicy cm ownerRef a).1.Data auditPolicyProfileMapKey
      = a.Profile := by
  simp [AuditEnabled, ReconcileAuditConfig, mapIndex, mapAssign]

/-- C9: `ReconcileAuditConfig` returns no error (also for nil `Data`), sets
`Data["policy.yaml"]` to the oauth policy and `Data["profile"]` to the string of
the profile, leaves the presence and value of every other key as they were, and
applying it a second time with the same arguments leaves `Data` unchanged. -/
theorem reconcileAuditConfig_frame {M : Type} (oauthPolicy : String) (cm : ConfigMap M)
    (ownerRef : OwnerRef M) (a : Audit) :
    (ReconcileAuditConfig oauthPolicy cm ownerRef a).2 = none ∧
    mapLookup (ReconcileAuditConfig oauthPolicy cm ownerRef a).1.Data auditPolicyConfigMapKey
      = some oauthPolicy ∧
    mapLookup (ReconcileAuditConfig oauthPolicy cm ownerRef a).1.Data auditPolicyProfileMapKey
      = some a.Profile ∧
    (∀ k : String, k ≠ auditPolicyConfigMapKey → k ≠ auditPolicyProfileMapKey →
      mapLookup (ReconcileAuditConfig oauthPolicy cm ownerRef a).1.Data k = mapLookup cm.Data k) ∧
    (ReconcileAuditConfig oauthPolicy (ReconcileAuditConfig oauthPolicy cm ownerRef a).1
        ownerRef a).1.Data
      = (ReconcileAuditConfig oauthPolicy cm ownerRef a).1.Data := by
  have hne : auditPolicyConfigMapKey ≠ auditPolicyProfileMapKey := by decide
  refine ⟨rfl, ?_, ?_, ?_, ?_⟩
  · simp [ReconcileAuditConfig, mapLookup, mapAssign, hne]
  · simp [ReconcileAuditConfig, mapLookup, mapAssign]
  · intro k h1 h2
    cases hd : cm.Data <;> simp [ReconcileAuditConfig, mapLookup, mapAssign, h1, h2, hd]
  · simp only [ReconcileAuditConfig]
    congr 1
    funext j
    simp only [mapAssign]
    by_cases h2 : j = auditPolicyProfileMapKey
    · simp [h2]
    · by_cases h1 : j = auditPolicyConfigMapKey
      · simp [h1, hne]
      · simp [h1, h2]

/-- C10: `AuditEnabled` is false if and only if `Data` holds the key
"profile" with the None audit profile string as its value; a config map with
nil `Data`, without the key, or with an empty value is audit-enabled; and two
config maps that agree on the key "profile" get the same answer. -/
theorem auditEnabled_false_iff {M : Type} (cm : ConfigMap M) :
    (AuditEnabled cm = false ↔
      mapLookup cm.Data auditPolicyProfileMapKey = some NoneAuditProfileType) ∧
    (cm.Data = none → AuditEnabled cm = true) ∧
    (mapLookup cm.Data auditPolicyProfileMapKey = none → AuditEnabled cm = true) ∧
    (mapLookup cm.Data auditPolicyProfileMapKey = some "" → AuditEnabled cm = true) ∧
    (∀ cm2 : ConfigMap M,
      mapLookup cm2.Data auditPolicyProfileMapKey = mapLookup cm.Data auditPolicyProfileMapKey →
      AuditEnabled cm2 = AuditEnabled cm) := by
  have hne : ("" : String) ≠ NoneAuditProfileType := by decide
  have key : ∀ c : ConfigMap M, mapIndex c.Data auditPolicyProfileMapKey
      = (mapLookup c.Data auditPolicyProfileMapKey).getD "" := by
    intro c
    cases hd : c.Data <;> simp [mapIndex, mapLookup]
  refine ⟨?_, ?_, ?_, ?_, ?_⟩
  · simp only [AuditEnabled, key]
    cases h : mapLookup cm.Data auditPolicyProfileMapKey with
    | none => simp [hne]
    | some v => simp
  · intro h
    simp [AuditEnabled, mapIndex, h, hne]
  · intro h
    simp [AuditEnabled, key, h, hne]
  · intro h
    simp [AuditEnabled, key, h, hne]
  · intro cm2 h
    simp [AuditEnabled, key, h]

end Oauth

namespace Oauth

/-- C9, at a concrete config map: a key other than the two written ones keeps
its value. -/
theorem reconcileAuditConfig_frame_witness :
    "other" ≠ auditPolicyConfigMapKey ∧ "other" ≠ auditPolicyProfileMapKey ∧
    mapLookup (ReconcileAuditConfig "policy"
        (⟨(), some (fun k => if k = "other" then some "x" else none)⟩ : ConfigMap Unit)
        ⟨id⟩ ⟨"Default"⟩).1.Data "other"
      = mapLookup (⟨(), some (fun k => if k = "other" then some "x" else none)⟩ :
          ConfigMap Unit).Data "other" :=
  ⟨by decide, by decide,
    (reconcileAuditConfig_frame "policy" _ ⟨id⟩ ⟨"Default"⟩).2.2.2.1 "other"
      (by decide) (by decide)⟩

/-- C10, at a concrete config map: nil `Data` is audit-enabled. -/
theorem auditEnabled_false_iff_witness :
    (⟨(), none⟩ : ConfigMap Unit).Data = none ∧
    AuditEnabled (⟨(), none⟩ : ConfigMap Unit) = true :=
  ⟨rfl, (auditEnabled_false_iff (⟨(), none⟩ : ConfigMap Unit)).2.1 rfl⟩

end Oauth

namespace Sizing

/-- The counting fold of `exists_one` is `List.countP`. -/
theorem foldl_count_eq {α : Type} (p : α → Bool) (l : List α) (k : Nat) :
    l.foldl (fun acc i => if p i then acc + 1 else acc) k = k + l.countP p := by
  induction l generalizing k with
  | nil => simp
  | cons a l ih =>
    simp only [List.foldl_cons, List.countP_cons, ih]
    by_cases h : p a = true
    · simp [h]; omega
    · simp [h]

/-- The macro `exists_one` holds exactly when one element satisfies the
predicate. -/
theorem exists_one_iff {α : Type} (p : α → Bool) (l : List α) :
    exists_one l p = true ↔ l.countP p = 1 := by
  simp [exists_one, foldl_count_eq]

/-- The list-map keys are unique exactly when the names have no duplicate. -/
theorem listMapKeysUnique_iff (l : List SizeConfiguration) :
    listMapKeysUnique l = true ↔ (l.map (fun i => i.Name)).Nodup := by
  induction l with
  | nil => simp [listMapKeysUnique]
  | cons a rest ih =>
    simp only [listMapKeysUnique, Bool.and_eq_true, ih, List.map_cons, List.nodup_cons]
    refine and_congr_left (fun _ => ?_)
    simp only [Bool.not_eq_true', List.any_eq_false, beq_iff_eq, List.mem_map, not_exists,
      not_and]

/-- C1, as stated, fails: two classes of the same name, `[0, 5]` and
`[6, +inf)`, have exactly one element with `from == 0` and exactly one with
`to` unset, and the validation declared on `Sizes` rejects the list, whose
list-map key `name` is not unique. -/
theorem validateSizes_rejects_duplicate_name :
    ([⟨"a", ⟨0, some 5⟩, none⟩, ⟨"a", ⟨6, none⟩, none⟩] : List SizeConfiguration).countP
      (fun i => decide (i.Criteria.From = 0)) = 1 ∧
    ([⟨"a", ⟨0, some 5⟩, none⟩, ⟨"a", ⟨6, none⟩, none⟩] : List SizeConfiguration).countP
      (fun i => decide (i.Criteria.To = none)) = 1 ∧
    validateSizes [⟨"a", ⟨0, some 5⟩, none⟩, ⟨"a", ⟨6, none⟩, none⟩] = false := by
  decide

/-- C1, amended: the validation declared on `Sizes` accepts a list if and only
if exactly one element has `criteria.from == 0`, exactly one element has
`criteria.to` unset, and no two elements have the same `name`; a list with no
or with two (or more) zero-lower-bound classes, with no or with two (or more)
open-upper-bound classes, and the empty list, are rejected. -/
theorem validateSizes_iff (sizes : List SizeConfiguration) :
    (validateSizes sizes = true ↔
      sizes.countP (fun i => decide (i.Criteria.From = 0)) = 1 ∧
      sizes.countP (fun i => decide (i.Criteria.To = none)) = 1 ∧
      (sizes.map (fun i => i.Name)).Nodup) ∧
    (sizes.countP (fun i => decide (i.Criteria.From = 0)) = 0 → validateSizes sizes = false) ∧
    (2 ≤ sizes.countP (fun i => decide (i.Criteria.From = 0)) → validateSizes sizes = false) ∧
    (sizes.countP (fun i => decide (i.Criteria.To = none)) = 0 → validateSizes sizes = false) ∧
    (2 ≤ sizes.countP (fun i => decide (i.Criteria.To = none)) → validateSizes sizes = false) ∧
    validateSizes [] = false := by
  have h0 : (fun i : SizeConfiguration => i.Criteria.From == 0)
      = (fun i => decide (i.Criteria.From = 0)) := by
    funext i; by_cases h : i.Criteria.From = 0 <;> simp [h]
  have h1 : (fun i : SizeConfiguration => !has i.Criteria.To)
      = (fun i => decide (i.Criteria.To = none)) := by
    funext i; cases h : i.Criteria.To <;> simp [has]
  have key : validateSizes sizes = true ↔
      sizes.countP (fun i => decide (i.Criteria.From = 0)) = 1 ∧
      sizes.countP (fun i => decide (i.Criteria.To = none)) = 1 ∧
      (sizes.map (fun i => i.Name)).Nodup := by
    simp only [validateSizes, sizesRules, sizesRuleLowerLimit, sizesRuleUpperLimit,
      Bool.and_eq_true, exists_one_iff, h0, h1, listMapKeysUnique_iff]
    constructor
    · rintro ⟨hn, hl, hu⟩
      exact ⟨hl, hu, hn⟩
    · rintro ⟨hl, hu, hn⟩
      exact ⟨hn, hl, hu⟩
  refine ⟨key, ?_, ?_, ?_, ?_, by decide⟩
  · intro h
    rw [← Bool.not_eq_true, key]; omega
  · intro h
    rw [← Bool.not_eq_true, key]; omega
  · intro h
    rw [← Bool.not_eq_true, key]; omega
  · intro h
    rw [← Bool.not_eq_true, key]; omega

/-- C1, amended, at a concrete list: two classes with lower limit zero are
rejected. -/
theorem validateSizes_iff_witness :
    2 ≤ ([⟨"a", ⟨0, some 5⟩, none⟩, ⟨"b", ⟨0, none⟩, none⟩] : List SizeConfiguration).countP
        (fun i => decide (i.Criteria.From = 0)) ∧
    validateSizes [⟨"a", ⟨0, some 5⟩, none⟩, ⟨"b", ⟨0, none⟩, none⟩] = false :=
  ⟨by decide, (validateSizes_iff _).2.2.1 (by decide)⟩

/-- C4: the rule on `NodeCountCriteria` rejects a criteria if and only if `to`
is set and `from > to`; with `to` unset every `from` is accepted, and
`from == to` is accepted. -/
theorem criteria_rule_iff (c : NodeCountCriteria) :
    (c.rule = false ↔ ∃ upper, c.To = some upper ∧ c.From > upper) ∧
    (c.To = none → c.rule = true) ∧
    (c.To = some c.From → c.rule = true) := by
  obtain ⟨lower, upper⟩ := c
  cases upper with
  | none => simp [NodeCountCriteria.rule, has]
  | some u =>
    simp only [NodeCountCriteria.rule, has]
    simp
    intro h
    omega

/-- C4, at a concrete criteria: the single-node-count class `[7, 7]` is
accepted. -/
theorem criteria_rule_iff_witness :
    (⟨7, some 7⟩ : NodeCountCriteria).To = some (⟨7, some 7⟩ : NodeCountCriteria).From ∧
    (⟨7, some 7⟩ : NodeCountCriteria).rule = true :=
  ⟨rfl, (criteria_rule_iff ⟨7, some 7⟩).2.2 rfl⟩

/-- C5: the defaults are `slidingWindow = "10m"`, `limit = 5`,
`transitionDelay.increase = "30s"` and `transitionDelay.decrease = "10m"`; each
duration default matches the pattern of its field and the default limit
satisfies the minimum of 1, so it is positive. -/
theorem defaults_valid :
    defaultSlidingWindow = "10m" ∧ defaultLimit = 5 ∧
    defaultIncrease = "30s" ∧ defaultDecrease = "10m" ∧
    validDuration defaultSlidingWindow = true ∧
    validDuration defaultIncrease = true ∧
    validDuration defaultDecrease = true ∧
    validLimit defaultLimit = true ∧ 0 < defaultLimit := by
  decide

/-- The rules on `Sizes` and `NodeCountCriteria` in terms of counts and
bounds. -/
theorem validateSizeClasses_eq (sizes : List SizeConfiguration) :
    validateSizeClasses sizes = true ↔
      sizes.countP (fun i => decide (i.Criteria.From = 0)) = 1 ∧
      sizes.countP (fun i => decide (i.Criteria.To = none)) = 1 ∧
      ∀ c ∈ sizes, ∀ upper, c.Criteria.To = some upper → c.Criteria.From ≤ upper := by
  have h0 : (fun i : SizeConfiguration => i.Criteria.From == 0)
      = (fun i => decide (i.Criteria.From = 0)) := by
    funext i; by_cases h : i.Criteria.From = 0 <;> simp [h]
  have h1 : (fun i : SizeConfiguration => !has i.Criteria.To)
      = (fun i => decide (i.Criteria.To = none)) := by
    funext i; cases h : i.Criteria.To <;> simp [has]
  simp only [validateSizeClasses, sizesRules, sizesRuleLowerLimit, sizesRuleUpperLimit,
    Bool.and_eq_true, exists_one_iff, h0, h1, List.all_eq_true, and_assoc]
  refine and_congr_right (fun _ => and_congr_right (fun _ => ?_))
  constructor
  · intro h c hc upper hu
    have := h c hc
    simpa [NodeCountCriteria.rule, has, hu] using this
  · intro h c hc
    cases hu : c.Criteria.To with
    | none => simp [NodeCountCriteria.rule, has, hu]
    | some u => simpa [NodeCountCriteria.rule, has, hu] using h c hc u hu

end Sizing

namespace Engine

open Sizing

/-- C2, as stated, fails: the rules on `Sizes` and `NodeCountCriteria` accept
the classes `[0, 5]`, `[10, +inf)`, which leave the node count 7 uncovered and
fail the partition invariant, and accept the classes `[0, 10]`, `[5, +inf)`,
which both match the node count 7. -/
theorem validateSizeClasses_accepts_gap_and_overlap :
    validateSizeClasses [⟨"small", ⟨0, some 5⟩, none⟩, ⟨"large", ⟨10, none⟩, none⟩] = true ∧
    (∀ c ∈ ([⟨"small", ⟨0, some 5⟩, none⟩, ⟨"large", ⟨10, none⟩, none⟩] : List SizeConfiguration),
      matchesCriteria c.Criteria 7 = false) ∧
    partitionInvariant [⟨"small", ⟨0, some 5⟩, none⟩, ⟨"large", ⟨10, none⟩, none⟩] = false ∧
    validateSizeClasses [⟨"small", ⟨0, some 10⟩, none⟩, ⟨"large", ⟨5, none⟩, none⟩] = true ∧
    ([⟨"small", ⟨0, some 10⟩, none⟩, ⟨"large", ⟨5, none⟩, none⟩] : List SizeConfiguration).countP
      (fun c => matchesCriteria c.Criteria 7) = 2 ∧
    partitionInvariant [⟨"small", ⟨0, some 10⟩, none⟩, ⟨"large", ⟨5, none⟩, none⟩] = false := by
  decide

/-- C2, amended: the rules on `Sizes` and `NodeCountCriteria` accept a
configuration if and only if exactly one class has `from == 0`, exactly one
has `to` unset, and every class with `to` set has `from <= to`; an accepted
configuration has a class that matches the node count 0 and a class without
upper limit that matches every node count from its lower limit on. -/
theorem validateSizeClasses_iff (sizes : List SizeConfiguration) :
    (validateSizeClasses sizes = true ↔
      sizes.countP (fun i => decide (i.Criteria.From = 0)) = 1 ∧
      sizes.countP (fun i => decide (i.Criteria.To = none)) = 1 ∧
      ∀ c ∈ sizes, ∀ upper, c.Criteria.To = some upper → c.Criteria.From ≤ upper) ∧
    (validateSizeClasses sizes = true →
      (∃ c ∈ sizes, matchesCriteria c.Criteria 0 = true) ∧
      (∃ c ∈ sizes, c.Criteria.To = none ∧
        ∀ n, c.Criteria.From ≤ n → matchesCriteria c.Criteria n = true)) := by
  refine ⟨validateSizeClasses_eq sizes, ?_⟩
  intro hv
  obtain ⟨h0, h1, hle⟩ := (validateSizeClasses_eq sizes).1 hv
  have p0 : 0 < sizes.countP (fun i => decide (i.Criteria.From = 0)) := by omega
  have p1 : 0 < sizes.countP (fun i => decide (i.Criteria.To = none)) := by omega
  obtain ⟨z, hz, hzp⟩ := List.countP_pos_iff.1 p0
  obtain ⟨w, hw, hwp⟩ := List.countP_pos_iff.1 p1
  have hz0 : z.Criteria.From = 0 := by simpa using hzp
  have hwn : w.Criteria.To = none := by simpa using hwp
  refine ⟨⟨z, hz, ?_⟩, ⟨w, hw, hwn, ?_⟩⟩
  · cases hu : z.Criteria.To with
    | none => simp [matchesCriteria, hz0, hu]
    | some u => simp [matchesCriteria, hz0, hu]
  · intro n hn
    simp [matchesCriteria, hn, hwn]

/-- C2, amended, at a concrete configuration: the classes `[0, 5]`,
`[6, +inf)` are accepted, the first matches 0 and the second has no upper
limit. -/
theorem validateSizeClasses_iff_witness :
    validateSizeClasses [⟨"small", ⟨0, some 5⟩, none⟩, ⟨"large", ⟨6, none⟩, none⟩] = true ∧
    ((∃ c ∈ ([⟨"small", ⟨0, some 5⟩, none⟩, ⟨"large", ⟨6, none⟩, none⟩] : List SizeConfiguration),
        matchesCriteria c.Criteria 0 = true) ∧
      (∃ c ∈ ([⟨"small", ⟨0, some 5⟩, none⟩, ⟨"large", ⟨6, none⟩, none⟩] : List SizeConfiguration),
        c.Criteria.To = none ∧
        ∀ n, c.Criteria.From ≤ n → matchesCriteria c.Criteria n = true)) :=
  ⟨by decide, (validateSizeClasses_iff _).2 (by decide)⟩

/-- No class matches a node count below every lower limit. -/
theorem filter_matches_of_lt (n : Nat) (l : List SizeConfiguration)
    (h : ∀ c ∈ l, n < c.Criteria.From) :
    l.filter (fun c => matchesCriteria c.Criteria n) = [] := by
  rw [List.filter_eq_nil_iff]
  intro c hc
  have := h c hc
  simp only [matchesCriteria, Bool.and_eq_true, decide_eq_true_eq, not_and]
  intro h2
  omega

/-- Along classes sorted by lower limit and contiguous, with an open class
among them, a node count at or above the first lower limit is matched by
exactly one class. -/
theorem filter_matches_of_contiguous (n : Nat) (l : List SizeConfiguration) :
    ∀ a : SizeConfiguration,
      List.Sorted (fun x y : SizeConfiguration => x.Criteria.From ≤ y.Criteria.From) (a :: l) →
      contiguous (a :: l) = true →
      (∃ c ∈ a :: l, c.Criteria.To = none) →
      a.Criteria.From ≤ n →
      ∃ c, (a :: l).filter (fun c => matchesCriteria c.Criteria n) = [c] := by
  induction l with
  | nil =>
    intro a _ _ hopen hn
    obtain ⟨c, hc, hcn⟩ := hopen
    have hca : c = a := by simpa using hc
    subst hca
    exact ⟨c, by simp [matchesCriteria, hn, hcn]⟩
  | cons b rest ih =>
    intro a hs hc hopen hn
    have hsb : List.Sorted (fun x y : SizeConfiguration => x.Criteria.From ≤ y.Criteria.From)
        (b :: rest) := hs.of_cons
    cases hu : a.Criteria.To with
    | none => simp [contiguous, hu] at hc
    | some u =>
      simp only [contiguous, hu, Bool.and_eq_true, beq_iff_eq] at hc
      obtain ⟨hub, hcb⟩ := hc
      have hopenb : ∃ c ∈ b :: rest, c.Criteria.To = none := by
        obtain ⟨c, hcm, hcn⟩ := hopen
        rcases List.mem_cons.1 hcm with h | h
        · subst h; rw [hu] at hcn; cases hcn
        · exact ⟨c, h, hcn⟩
      by_cases hnu : n ≤ u
      · have hrest : (b :: rest).filter (fun c => matchesCriteria c.Criteria n) = [] := by
          apply filter_matches_of_lt
          intro c hcm
          rcases List.mem_cons.1 hcm with h | h
          · subst h; omega
          · have := List.rel_of_sorted_cons hsb c h
            omega
        refine ⟨a, ?_⟩
        rw [List.filter_cons, hrest]
        simp [matchesCriteria, hn, hu, hnu]
      · obtain ⟨c, hcf⟩ := ih b hsb hcb hopenb (by omega)
        refine ⟨c, ?_⟩
        rw [List.filter_cons, hcf]
        simp [matchesCriteria, hu, hnu]

/-- C3: for every configuration whose size classes satisfy the partition
invariant and every node count `n` in `[0, 2^32-1]`, exactly one size class
of the configuration matches `n` (`from <= n` and `to` unset or `n <= to`),
and `Classify(n)` is defined and is the name of that class. -/
theorem classify_total (sizes : List SizeConfiguration) (n : Nat)
    (hv : partitionInvariant sizes = true) (_hn : n < 2 ^ 32) :
    ∃ c, sizes.filter (fun s => matchesCriteria s.Criteria n) = [c] ∧
      Classify sizes n = some c.Name := by
  simp only [partitionInvariant, Bool.and_eq_true, exists_one_iff] at hv
  obtain ⟨⟨h0, h1⟩, hc⟩ := hv
  have hperm : List.Perm (sortByFrom sizes) sizes := List.perm_insertionSort _ _
  haveI : IsTotal SizeConfiguration (fun x y => x.Criteria.From ≤ y.Criteria.From) :=
    ⟨fun x y => Nat.le_total _ _⟩
  haveI : IsTrans SizeConfiguration (fun x y => x.Criteria.From ≤ y.Criteria.From) :=
    ⟨fun x y z hxy hyz => Nat.le_trans hxy hyz⟩
  have hsorted : List.Sorted (fun x y : SizeConfiguration => x.Criteria.From ≤ y.Criteria.From)
      (sortByFrom sizes) := List.sorted_insertionSort _ _
  have p0 : 0 < sizes.countP (fun i => i.Criteria.From == 0) := by omega
  have p1 : 0 < sizes.countP (fun i => !has i.Criteria.To) := by omega
  obtain ⟨z, hz, hzp⟩ := List.countP_pos_iff.1 p0
  obtain ⟨w, hw, hwp⟩ := List.countP_pos_iff.1 p1
  have hz0 : z.Criteria.From = 0 := by simpa using hzp
  have hwn : w.Criteria.To = none := by
    cases h : w.Criteria.To with
    | none => rfl
    | some u => simp [has, h] at hwp
  have hzs : z ∈ sortByFrom sizes := hperm.mem_iff.2 hz
  have hws : w ∈ sortByFrom sizes := hperm.mem_iff.2 hw
  cases hl : sortByFrom sizes with
  | nil => rw [hl] at hzs; cases hzs
  | cons a l =>
    rw [hl] at hsorted hc hzs hws
    have ha : a.Criteria.From ≤ n := by
      rcases List.mem_cons.1 hzs with h | h
      · subst h; omega
      · have := List.rel_of_sorted_cons hsorted z h
        omega
    obtain ⟨c, hcf⟩ := filter_matches_of_contiguous n l a hsorted hc ⟨w, hws, hwn⟩ ha
    refine ⟨c, ?_, ?_⟩
    · have hp := hperm.filter (fun s => matchesCriteria s.Criteria n)
      rw [hl, hcf] at hp
      exact List.perm_singleton.1 hp.symm
    · simp only [Classify, hl, ← List.filter_head?, hcf]
      rfl

/-- C3, at a concrete configuration: with the classes `[0, 5]`, `[6, 20]`,
`[21, +inf)` given in another order, the node count 7 is classified. -/
theorem classify_total_witness :
    partitionInvariant [⟨"large", ⟨21, none⟩, none⟩, ⟨"small", ⟨0, some 5⟩, none⟩,
      ⟨"medium", ⟨6, some 20⟩, none⟩] = true ∧ 7 < 2 ^ 32 ∧
    ∃ c, ([⟨"large", ⟨21, none⟩, none⟩, ⟨"small", ⟨0, some 5⟩, none⟩,
        ⟨"medium", ⟨6, some 20⟩, none⟩] : List SizeConfiguration).filter
          (fun s => matchesCriteria s.Criteria 7) = [c] ∧
      Classify [⟨"large", ⟨21, none⟩, none⟩, ⟨"small", ⟨0, some 5⟩, none⟩,
        ⟨"medium", ⟨6, some 20⟩, none⟩] 7 = some c.Name :=
  ⟨by decide, by decide, classify_total _ 7 (by decide) (by decide)⟩

end Engine

namespace Engine

open Sizing

/-- A later time does not enlarge the window count. -/
theorem windowCount_mono (ledger : List TransitionRecord) (w t1 t2 : Int) (h : t1 ≤ t2) :
    windowCount ledger w t2 ≤ windowCount ledger w t1 := by
  apply List.countP_mono_left
  intro r _ hr
  simp only [decide_eq_true_eq] at hr ⊢
  omega

/-- The entries committed in `(now - w, now]` are among those counted by the
limiter at `now`. -/
theorem committedInWindow_le (ledger : List TransitionRecord) (w now : Int) :
    committedInWindow ledger w now ≤ windowCount ledger w now := by
  apply List.countP_mono_left
  intro r _ hr
  simp only [decide_eq_true_eq] at hr ⊢
  omega

/-- One `Admit` call at a time `now` not before the ledger's latest entry keeps
the entries at or before `now` and the window count within the limit. -/
theorem admit_invariant (c : ConcurrencyConfiguration) (ledger : List TransitionRecord)
    (clusterID : String) (t now : Int)
    (hle : ∀ r ∈ ledger, r.committedAt ≤ t)
    (hcount : (windowCount ledger c.SlidingWindow t : Int) ≤ c.Limit) (htn : t ≤ now) :
    (∀ r ∈ (Admit c ledger clusterID now).2, r.committedAt ≤ now) ∧
    (windowCount (Admit c ledger clusterID now).2 c.SlidingWindow now : Int) ≤ c.Limit := by
  have hmono := windowCount_mono ledger c.SlidingWindow t now htn
  unfold Admit
  split
  · rename_i hlt
    refine ⟨?_, ?_⟩
    · intro r hr
      rcases List.mem_append.1 hr with h | h
      · have := hle r h; omega
      · have hr2 : r = { clusterID := clusterID, committedAt := now } := by simpa using h
        subst hr2
        exact le_refl _
    · have hle1 : windowCount (ledger ++ [{ clusterID := clusterID, committedAt := now }])
          c.SlidingWindow now ≤ windowCount ledger c.SlidingWindow now + 1 := by
        simp only [windowCount, List.countP_append, List.countP_cons, List.countP_nil]
        split <;> omega
      show (windowCount (ledger ++ [{ clusterID := clusterID, committedAt := now }])
        c.SlidingWindow now : Int) ≤ c.Limit
      omega
  · refine ⟨?_, ?_⟩
    · intro r hr
      have := hle r hr; omega
    · show (windowCount ledger c.SlidingWindow now : Int) ≤ c.Limit
      omega

/-- A sequence of `Admit` calls at non-decreasing times keeps the window count
within the limit at every later time. -/
theorem admitAll_invariant (c : ConcurrencyConfiguration) (calls : List (String × Int)) :
    ∀ (ledger : List TransitionRecord) (t : Int),
      (∀ r ∈ ledger, r.committedAt ≤ t) →
      (windowCount ledger c.SlidingWindow t : Int) ≤ c.Limit →
      List.Pairwise (fun a b : Int => a ≤ b) (calls.map Prod.snd) →
      (∀ call ∈ calls, t ≤ call.2) →
      ∀ now : Int, t ≤ now → (∀ call ∈ calls, call.2 ≤ now) →
        (windowCount (admitAll c ledger calls) c.SlidingWindow now : Int) ≤ c.Limit := by
  induction calls with
  | nil =>
    intro ledger t _ hcount _ _ now htn _
    have := windowCount_mono ledger c.SlidingWindow t now htn
    simp only [admitAll]
    omega
  | cons call rest ih =>
    intro ledger t hle hcount hsorted hafter now _ hbefore
    simp only [admitAll]
    have hcall : t ≤ call.2 := hafter call (List.mem_cons_self _ _)
    obtain ⟨h1, h2⟩ := admit_invariant c ledger call.1 t call.2 hle hcount hcall
    simp only [List.map_cons, List.pairwise_cons] at hsorted
    refine ih _ call.2 h1 h2 hsorted.2 ?_ now (hbefore call (List.mem_cons_self _ _)) ?_
    · intro d hd
      exact hsorted.1 d.2 (List.mem_map_of_mem _ hd)
    · intro d hd
      exact hbefore d (List.mem_cons_of_mem _ hd)

/-- C6: `Admit(clusterID, now)` returns true and appends exactly the record
`{clusterID, now}` when fewer than `limit` ledger entries have
`committedAt > now - slidingWindow`, and otherwise returns false and leaves the
ledger unchanged; starting from an empty ledger and calling `Admit` at
non-decreasing times, the number of committed transitions in
`(now - slidingWindow, now]` never exceeds `limit`; and with `limit = 5` and
`slidingWindow = 10m` (600 s), after commits at `t`, `t+1`, ..., `t+4` minutes a
candidate at `t+4.5` minutes is deferred and at `t+10.1` minutes is admitted. -/
theorem admit_rate_limit (c : ConcurrencyConfiguration) (hlimit : 1 ≤ c.Limit) :
    (∀ (ledger : List TransitionRecord) (clusterID : String) (now : Int),
      ((windowCount ledger c.SlidingWindow now : Int) < c.Limit →
        Admit c ledger clusterID now
          = (true, ledger ++ [{ clusterID := clusterID, committedAt := now }])) ∧
      (¬ (windowCount ledger c.SlidingWindow now : Int) < c.Limit →
        Admit c ledger clusterID now = (false, ledger))) ∧
    (∀ (calls : List (String × Int)) (now : Int),
      List.Pairwise (fun a b : Int => a ≤ b) (calls.map Prod.snd) →
      (∀ call ∈ calls, call.2 ≤ now) →
      (committedInWindow (admitAll c [] calls) c.SlidingWindow now : Int) ≤ c.Limit) ∧
    (∀ t : Int,
      admitAll ⟨600, 5⟩ [] [("a", t), ("b", t + 60), ("c", t + 120), ("d", t + 180), ("e", t + 240)]
        = [⟨"a", t⟩, ⟨"b", t + 60⟩, ⟨"c", t + 120⟩, ⟨"d", t + 180⟩, ⟨"e", t + 240⟩] ∧
      Admit ⟨600, 5⟩ [⟨"a", t⟩, ⟨"b", t + 60⟩, ⟨"c", t + 120⟩, ⟨"d", t + 180⟩, ⟨"e", t + 240⟩]
          "f" (t + 270)
        = (false, [⟨"a", t⟩, ⟨"b", t + 60⟩, ⟨"c", t + 120⟩, ⟨"d", t + 180⟩, ⟨"e", t + 240⟩]) ∧
      Admit ⟨600, 5⟩ [⟨"a", t⟩, ⟨"b", t + 60⟩, ⟨"c", t + 120⟩, ⟨"d", t + 180⟩, ⟨"e", t + 240⟩]
          "f" (t + 606)
        = (true, [⟨"a", t⟩, ⟨"b", t + 60⟩, ⟨"c", t + 120⟩, ⟨"d", t + 180⟩, ⟨"e", t + 240⟩,
            ⟨"f", t + 606⟩])) := by
  refine ⟨?_, ?_, ?_⟩
  · intro ledger clusterID now
    constructor
    · intro h; simp [Admit, h]
    · intro h; simp [Admit, h]
  · intro calls now hsorted hbefore
    have hw := committedInWindow_le (admitAll c [] calls) c.SlidingWindow now
    cases calls with
    | nil =>
      have : committedInWindow (admitAll c [] []) c.SlidingWindow now = 0 := by
        simp [admitAll, committedInWindow]
      omega
    | cons call rest =>
      have h := admitAll_invariant c (call :: rest) [] call.2 (by simp)
        (by simp [windowCount]; omega) hsorted
        (by
          intro d hd
          rcases List.mem_cons.1 hd with h | h
          · subst h; exact le_refl _
          · simp only [List.map_cons, List.pairwise_cons] at hsorted
            exact hsorted.1 d.2 (List.mem_map_of_mem _ h))
        now (hbefore call (List.mem_cons_self _ _)) hbefore
      omega
  · intro t
    refine ⟨?_, ?_, ?_⟩
    · simp (disch := omega) [admitAll, Admit, windowCount, List.countP_cons, if_pos, if_neg]
    · simp (disch := omega) [Admit, windowCount, List.countP_cons, if_pos, if_neg]
    · simp (disch := omega) [Admit, windowCount, List.countP_cons, if_pos, if_neg]

end Engine

namespace Engine

open Sizing

/-- C6, at a concrete run: with `limit = 5` and a window of 600, seven calls at
non-decreasing times leave at most five commits in the window ending at
606. -/
theorem admit_rate_limit_witness :
    (1 : Int) ≤ (⟨600, 5⟩ : ConcurrencyConfiguration).Limit ∧
    List.Pairwise (fun a b : Int => a ≤ b)
      (([("a", 0), ("b", 60), ("c", 120), ("d", 180), ("e", 240), ("f", 270), ("g", 606)] :
        List (String × Int)).map Prod.snd) ∧
    (∀ call ∈ ([("a", 0), ("b", 60), ("c", 120), ("d", 180), ("e", 240), ("f", 270),
        ("g", 606)] : List (String × Int)), call.2 ≤ 606) ∧
    (committedInWindow
      (admitAll ⟨600, 5⟩ []
        [("a", 0), ("b", 60), ("c", 120), ("d", 180), ("e", 240), ("f", 270), ("g", 606)])
      (⟨600, 5⟩ : ConcurrencyConfiguration).SlidingWindow 606 : Int)
      ≤ (⟨600, 5⟩ : ConcurrencyConfiguration).Limit :=
  ⟨by decide, by decide, by decide,
    (admit_rate_limit ⟨600, 5⟩ (by decide)).2.1 _ 606 (by decide) (by decide)⟩

/-- The update `observe` does not touch `currentSize`. -/
theorem observe_currentSize (s : ClusterSizingState) (observed : String) (now : Int) :
    (observe s observed now).currentSize = s.currentSize := by
  unfold observe
  split
  · rfl
  · split
    · rfl
    · split <;> rfl

/-- An observation is the name of a class of the configuration. -/
theorem lowerBound_of_observation (spec : ClusterSizingConfigurationSpec) (e : Evaluation)
    (name : String) (h : observation spec e = some name) :
    ∃ lower, lowerBound spec.Sizes name = some lower := by
  unfold observation at h
  by_cases hv : partitionInvariant spec.Sizes = true
  · rw [if_pos hv] at h
    cases hn : e.nodeCount with
    | none => rw [hn] at h; cases h
    | some n =>
      rw [hn] at h
      dsimp only at h
      unfold Classify at h
      cases hfind : (sortByFrom spec.Sizes).find? (fun c => matchesCriteria c.Criteria n) with
      | none => rw [hfind] at h; cases h
      | some c =>
        rw [hfind] at h
        have hname : c.Name = name := by simpa using h
        have hmem : c ∈ sortByFrom spec.Sizes := List.mem_of_find?_eq_some hfind
        have hmem2 : c ∈ spec.Sizes := (List.perm_insertionSort _ _).mem_iff.1 hmem
        have hsome : (spec.Sizes.find? (fun d => d.Name == name)).isSome = true := by
          rw [List.find?_isSome]
          exact ⟨c, hmem2, by simp [hname]⟩
        obtain ⟨d, hd⟩ := Option.isSome_iff_exists.1 hsome
        exact ⟨d.Criteria.From, by simp [lowerBound, hd]⟩
  · rw [if_neg hv] at h
    cases h

/-- An evaluation at which the cluster is not Ready, of a cluster whose current
size is a class of the configuration, leaves the ledger and `currentSize` as
they were. -/
theorem evaluate_not_ready (spec : ClusterSizingConfigurationSpec) (clusterID : String)
    (st : List TransitionRecord × ClusterSizingState) (e : Evaluation) (lower : Nat)
    (hknown : lowerBound spec.Sizes st.2.currentSize = some lower)
    (hnot : readyAt spec st.2 e = false) :
    (evaluate spec clusterID st e).1 = st.1 ∧
    (evaluate spec clusterID st e).2.currentSize = st.2.currentSize := by
  unfold evaluate
  unfold readyAt at hnot
  cases hobs : observation spec e with
  | none => simp
  | some observed =>
    simp only [hobs] at hnot
    simp only [hknown, hnot]
    simp [observe_currentSize]

/-- While the delay has not elapsed, no prefix of the evaluations changes the
ledger or `currentSize`. -/
theorem evaluateAll_not_ready (spec : ClusterSizingConfigurationSpec) (clusterID : String)
    (es : List Evaluation) :
    ∀ (st : List TransitionRecord × ClusterSizingState) (lower : Nat),
      lowerBound spec.Sizes st.2.currentSize = some lower →
      delayNotElapsed spec clusterID st es = true →
      ∀ k : Nat,
        (evaluateAll spec clusterID st (es.take k)).1 = st.1 ∧
        (evaluateAll spec clusterID st (es.take k)).2.currentSize = st.2.currentSize := by
  induction es with
  | nil =>
    intro st lower _ _ k
    simp [evaluateAll]
  | cons e rest ih =>
    intro st lower hknown hdelay k
    cases k with
    | zero => simp [evaluateAll]
    | succ k =>
      simp only [delayNotElapsed, Bool.and_eq_true, Bool.not_eq_true'] at hdelay
      obtain ⟨hnot, hrest⟩ := hdelay
      obtain ⟨h1, h2⟩ := evaluate_not_ready spec clusterID st e lower hknown hnot
      have := ih (evaluate spec clusterID st e) lower (by rw [h2]; exact hknown) hrest k
      simp only [evaluateAll, List.take_succ_cons, List.foldl_cons] at this ⊢
      rw [this.1, this.2, h1, h2]
      exact ⟨rfl, rfl⟩

/-- C7: for a cluster in the Stable state and every sequence of evaluations
during which `delay(direction)` has at no evaluation elapsed since
`pendingSince`, followed by an evaluation whose observed size equals
`currentSize` again, no transition is committed: after every prefix of the
sequence the ledger and `currentSize` are unchanged, and at the end the cluster
is back in its Stable state with `pendingSince` absent, whatever sizes were
observed in between. -/
theorem no_flap (spec : ClusterSizingConfigurationSpec) (clusterID : String)
    (ledger : List TransitionRecord) (s : ClusterSizingState)
    (excursion : List Evaluation) (back : Evaluation)
    (hstable : isStable s = true)
    (hdelay : delayNotElapsed spec clusterID (ledger, s) excursion = true)
    (hback : observation spec back = some s.currentSize) :
    (∀ k : Nat,
      (evaluateAll spec clusterID (ledger, s) (excursion.take k)).1 = ledger ∧
      (evaluateAll spec clusterID (ledger, s) (excursion.take k)).2.currentSize
        = s.currentSize) ∧
    evaluateAll spec clusterID (ledger, s) (excursion ++ [back]) = (ledger, s) ∧
    (evaluateAll spec clusterID (ledger, s) (excursion ++ [back])).2.pendingSince = none := by
  obtain ⟨lower, hknown⟩ := lowerBound_of_observation spec back s.currentSize hback
  have hpre := evaluateAll_not_ready spec clusterID excursion (ledger, s) lower hknown hdelay
  have hall := hpre excursion.length
  rw [List.take_length] at hall
  obtain ⟨cur, obs, pend⟩ := s
  simp only [isStable, Bool.and_eq_true, beq_iff_eq, Option.isNone_iff_eq_none] at hstable
  obtain ⟨hobs, hpend⟩ := hstable
  subst hobs hpend
  have hfinal : evaluateAll spec clusterID
      (ledger, { currentSize := obs, observedSize := obs, pendingSince := none })
      (excursion ++ [back])
      = (ledger, { currentSize := obs, observedSize := obs, pendingSince := none }) := by
    simp only [evaluateAll, List.foldl_append, List.foldl_cons, List.foldl_nil] at hall ⊢
    generalize List.foldl (evaluate spec clusterID)
      (ledger, { currentSize := obs, observedSize := obs, pendingSince := none }) excursion
      = mid at hall
    obtain ⟨l1, s1⟩ := mid
    obtain ⟨h1, h2⟩ := hall
    simp only at h1 h2 hback hknown
    subst h1
    simp only [evaluate, hback, h2, hknown, observe, if_true, isReady]
    simp [h2]
  exact ⟨hpre, hfinal, by rw [hfinal]⟩

/-- C7, at a concrete excursion: a cluster of size "small" observed as
"medium", "large" and "medium" again within the delays, then back at "small",
commits nothing. -/
theorem no_flap_witness :
    isStable ⟨"small", "small", none⟩ = true ∧
    delayNotElapsed
      ⟨[⟨"large", ⟨21, none⟩, none⟩, ⟨"small", ⟨0, some 5⟩, none⟩,
        ⟨"medium", ⟨6, some 20⟩, none⟩], ⟨600, 5⟩, ⟨30, 600⟩⟩ "c"
      ([], ⟨"small", "small", none⟩) [⟨some 8, 0⟩, ⟨some 25, 20⟩, ⟨some 9, 40⟩] = true ∧
    observation
      ⟨[⟨"large", ⟨21, none⟩, none⟩, ⟨"small", ⟨0, some 5⟩, none⟩,
        ⟨"medium", ⟨6, some 20⟩, none⟩], ⟨600, 5⟩, ⟨30, 600⟩⟩ ⟨some 3, 60⟩ = some "small" ∧
    evaluateAll
      ⟨[⟨"large", ⟨21, none⟩, none⟩, ⟨"small", ⟨0, some 5⟩, none⟩,
        ⟨"medium", ⟨6, some 20⟩, none⟩], ⟨600, 5⟩, ⟨30, 600⟩⟩ "c"
      ([], ⟨"small", "small", none⟩)
      ([⟨some 8, 0⟩, ⟨some 25, 20⟩, ⟨some 9, 40⟩] ++ [⟨some 3, 60⟩])
      = ([], ⟨"small", "small", none⟩) :=
  ⟨by decide, by decide, by decide,
    (no_flap _ "c" [] ⟨"small", "small", none⟩ [⟨some 8, 0⟩, ⟨some 25, 20⟩, ⟨some 9, 40⟩]
      ⟨some 3, 60⟩ (by decide) (by decide) (by decide)).2.1⟩

end Engine
